import Mathlib

/-!
Verification of the text-rendering pipeline of the `duck` repository.

The Rust sources are shallowly embedded: `f32` values are modelled as exact
rationals (`ℚ`), `u8`/`u16`/`u32`/`usize` as `ℕ`, `i32` as `ℤ`, growable
vectors and hash maps as lists, and the external collaborators (the swash
rasterizer and the guillotiere bin-packing allocator) as function parameters.
All inputs exercised by the concrete theorems below are exactly representable
in `f32` and small enough that every `f32` operation the code performs on them
is exact, so the rational model agrees with the floating-point code on them.
-/

section DuckPipeline

attribute [local semireducible] Rat.add Rat.mul Rat.inv Rat.sub Rat.ofScientific

/-- Result of rounding half away from zero, which is the behaviour of Rust's
`f32::round`, transported to `ℚ`. -/
def roundAway (q : ℚ) : ℚ :=
  if 0 ≤ q then ((Rat.floor (q + 1/2) : ℤ) : ℚ) else -((Rat.floor (-q + 1/2) : ℤ) : ℚ)

/-- Subpixel offset buckets, from `src/gfx/glyph_cache.rs`. -/
inductive SubpixelOffset where
  | Zero
  | Quarter
  | Half
  | ThreeQuarters
deriving DecidableEq, Repr

/-- Embedding of `SubpixelOffset::quantize` from `src/gfx/glyph_cache.rs`.
The Rust code computes `((pos - pos.floor()) * 8.0) as i32` and matches on the
result; the cast truncates toward zero, which on the nonnegative fractional
part equals the floor. -/
def SubpixelOffset.quantize (pos : ℚ) : SubpixelOffset :=
  let apos : ℤ := Rat.floor ((pos - (Rat.floor pos : ℤ)) * 8)
  if 1 ≤ apos ∧ apos ≤ 2 then SubpixelOffset.Quarter
  else if 3 ≤ apos ∧ apos ≤ 4 then SubpixelOffset.Half
  else if 5 ≤ apos ∧ apos ≤ 6 then SubpixelOffset.ThreeQuarters
  else SubpixelOffset.Zero

/-- Embedding of `SubpixelOffset::to_f32` from `src/gfx/glyph_cache.rs`. -/
def SubpixelOffset.to_f32 : SubpixelOffset → ℚ
  | SubpixelOffset.Zero => 0
  | SubpixelOffset.Quarter => 1/4
  | SubpixelOffset.Half => 1/2
  | SubpixelOffset.ThreeQuarters => 3/4

/-- Embedding of `Glyph` from `src/fonts.rs`. -/
structure Glyph where
  id : ℕ
  x_offset : ℤ
  y_offset : ℤ
  x_advance : ℤ
  y_advance : ℤ
deriving DecidableEq, Repr

/-- Vertical font metrics as used by `Layout::finish` (the `ascent`, `descent`
and `leading` fields of `swash::Metrics`). -/
structure Metrics where
  ascent : ℚ
  descent : ℚ
  leading : ℚ
deriving DecidableEq, Repr

/-- Embedding of `Run` from `src/layout.rs`. -/
structure Run where
  font_index : ℕ
  glyphs : List Glyph
  coords : List ℤ
  size : ℚ
  metrics : Metrics
deriving DecidableEq, Repr

/-- Embedding of `Line` from `src/layout.rs`. -/
structure Line where
  runs : List Run
  ascent : ℚ
  descent : ℚ
  leading : ℚ
  above : ℚ
  below : ℚ
deriving DecidableEq, Repr

/-- Embedding of `Layout` from `src/layout.rs`. -/
structure Layout where
  lines : List Line
deriving DecidableEq, Repr

/-- Embedding of `Layout::push_run` from `src/layout.rs`. In the source the
whole body apart from a `println!` debug statement is commented out, so the
function returns with the layout unchanged; the parameters mirror the Rust
signature `push_run(&mut self, line_no, font_index, doc_byte_range, glyphs)`. -/
def Layout.push_run (l : Layout) (line_no : ℕ) (font_index : ℕ)
    (doc_byte_range : ℕ × ℕ) (glyphs : List Glyph) : Layout :=
  l

/-- Embedding of the per-line metric aggregation in `Layout::finish` from
`src/layout.rs`. Note that the source assigns `line.descent =
line.ascent.round()` (the line marked `// eh???`), reading the already rounded
ascent, and rounds the leading to the nearest even value via
`(line.leading * 0.5).round() * 2.`. -/
def Line.finish_metrics (line : Line) : Line :=
  let ascent0 := line.runs.foldl (fun m r => max m r.metrics.ascent) 0
  let descent0 := line.runs.foldl (fun m r => max m r.metrics.descent) 0
  let leading0 := line.runs.foldl (fun m r => max m r.metrics.leading) 0
  let ascent := roundAway ascent0
  let descent := roundAway ascent
  let leading := roundAway (leading0 * (1/2)) * 2
  let below := roundAway (descent + leading * (1/2))
  let above := roundAway (ascent + leading * (1/2))
  { line with ascent := ascent, descent := descent, leading := leading,
              below := below, above := above }

/-- Embedding of `Layout::finish` from `src/layout.rs` (the unused `descent0`
binding in `Line.finish_metrics` records that the source folds the run descents
but then overwrites the result). -/
def Layout.finish (l : Layout) : Layout :=
  { lines := l.lines.map Line.finish_metrics }

/-- Embedding of `Color` (RGBA, `u8` channels) from `src/gfx/color.rs` as used
by the compositor. -/
structure Color where
  r : ℕ
  g : ℕ
  b : ℕ
  a : ℕ
deriving DecidableEq, Repr

/-- Embedding of `Rect` from `src/gfx/types.rs`. -/
structure Rect where
  x : ℚ
  y : ℚ
  width : ℚ
  height : ℚ
deriving DecidableEq, Repr

/-- Embedding of `Vertex` from `src/gfx/types.rs`: a 4-component position
(x, y, depth, flags), a color and a UV coordinate. -/
structure Vertex where
  pos : ℚ × ℚ × ℚ × ℚ
  color : Color
  uv : ℚ × ℚ
deriving DecidableEq, Repr

/-- Embedding of `Batch` from `src/gfx/compositor.rs`. -/
structure Batch where
  atlas_index : Option ℕ
  vertices : List Vertex
  indices : List ℕ
deriving DecidableEq, Repr

/-- The `Default` instance of `Batch` (all fields empty). -/
def Batch.default : Batch :=
  { atlas_index := none, vertices := [], indices := [] }

/-- Embedding of `Batch::clear` from `src/gfx/compositor.rs`. -/
def Batch.clear (batch : Batch) : Batch :=
  { atlas_index := none, vertices := [], indices := [] }

/-- Embedding of `Batch::add_rect` from `src/gfx/compositor.rs`: appends the
four corner vertices and six indices of one quad, and unconditionally stores
the primitive's atlas index into the batch. -/
def Batch.add_rect (batch : Batch) (rect : Rect) (depth : ℚ) (color : Color)
    (coords : Option (ℚ × ℚ × ℚ × ℚ)) (atlas_index : Option ℕ) : Batch :=
  let x := rect.x
  let y := rect.y
  let w := rect.width
  let h := rect.height
  let l := match coords with | some c => c.1 | none => 0
  let t := match coords with | some c => c.2.1 | none => 0
  let r := match coords with | some c => c.2.2.1 | none => 1
  let b := match coords with | some c => c.2.2.2 | none => 1
  let flags : ℚ := if coords.isSome then 1 else 0
  let verts : List Vertex :=
    [ { pos := (x, y, depth, flags), color := color, uv := (l, t) },
      { pos := (x, y + h, depth, flags), color := color, uv := (l, b) },
      { pos := (x + w, y + h, depth, flags), color := color, uv := (r, b) },
      { pos := (x + w, y, depth, flags), color := color, uv := (r, t) } ]
  let base := batch.vertices.length
  { atlas_index := atlas_index,
    vertices := batch.vertices ++ verts,
    indices := batch.indices ++ [base, base + 1, base + 2, base, base + 2, base + 3] }

/-- Embedding of the closure `check_fn` inside `Compositor::get_batch` from
`src/gfx/compositor.rs`. -/
def check_fn (atlas_index : Option ℕ) (batch : Batch) : Bool :=
  if atlas_index.isSome && batch.atlas_index.isSome then
    atlas_index == batch.atlas_index
  else
    true

/-- Index of the first batch in the list accepted by `check_fn`; this is the
search done by `Compositor::get_batch` (`iter_mut().find(check_fn)`). -/
def find_batch (atlas_index : Option ℕ) : List Batch → Option ℕ
  | [] => none
  | batch :: rest =>
    if check_fn atlas_index batch then some 0
    else (find_batch atlas_index rest).map (· + 1)

/-- Replace the element at position `i` by `f` of it (used to model mutating
the batch returned by `Compositor::get_batch` in place). -/
def modify_at (l : List Batch) (i : ℕ) (f : Batch → Batch) : List Batch :=
  match l, i with
  | [], _ => []
  | batch :: rest, 0 => f batch :: rest
  | batch :: rest, i + 1 => batch :: modify_at rest i f

/-- Embedding of a texture location entry from `src/gfx/image_cache.rs`. -/
structure TextureLocation where
  atlas_index : ℕ
  min : ℚ × ℚ
  max : ℚ × ℚ
deriving DecidableEq, Repr

/-- Embedding of `Compositor` from `src/gfx/compositor.rs`; the three kind
lists keep the batches of the opaque, transparent and sub-pixel pipelines. -/
structure Compositor where
  empty_batches : List Batch
  opaque_batches : List Batch
  transparent_batches : List Batch
  subpixel_batches : List Batch
deriving DecidableEq, Repr

/-- Embedding of `Compositor::new`. -/
def Compositor.new : Compositor :=
  { empty_batches := [], opaque_batches := [], transparent_batches := [],
    subpixel_batches := [] }

/-- Embedding of `Compositor::begin` from `src/gfx/compositor.rs`: the opaque
and the transparent lists are appended to the empty pool and every batch in the
pool is cleared; the source does not touch `subpixel_batches`. -/
def Compositor.begin (c : Compositor) : Compositor :=
  { empty_batches :=
      (c.empty_batches ++ c.opaque_batches ++ c.transparent_batches).map Batch.clear,
    opaque_batches := [],
    transparent_batches := [],
    subpixel_batches := c.subpixel_batches }

/-- Composition of `Compositor::get_batch`, `Compositor::allocate_batch` and
`Batch::add_rect` on one kind list: find the first compatible batch and add the
quad to it, otherwise recycle the last pooled batch (or a default one) as a new
batch of this kind and add the quad to that. Returns the updated kind list and
the updated pool. -/
def place_rect (target : List Batch) (pool : List Batch) (rect : Rect)
    (depth : ℚ) (color : Color) (coords : Option (ℚ × ℚ × ℚ × ℚ))
    (atlas_index : Option ℕ) : List Batch × List Batch :=
  match find_batch atlas_index target with
  | some i =>
    (modify_at target i (fun b => b.add_rect rect depth color coords atlas_index), pool)
  | none =>
    let popped := pool.getLast?.getD Batch.default
    (target ++ [popped.add_rect rect depth color coords atlas_index], pool.dropLast)

/-- Embedding of `Compositor::draw_rect` from `src/gfx/compositor.rs`: fully
opaque colors go to the opaque pipeline, all others to the transparent one; no
texture is bound. -/
def Compositor.draw_rect (c : Compositor) (rect : Rect) (depth : ℚ)
    (color : Color) : Compositor :=
  if color.a = 255 then
    let p := place_rect c.opaque_batches c.empty_batches rect depth color none none
    { c with opaque_batches := p.1, empty_batches := p.2 }
  else
    let p := place_rect c.transparent_batches c.empty_batches rect depth color none none
    { c with transparent_batches := p.1, empty_batches := p.2 }

/-- Embedding of `Compositor::add_image_rect` from `src/gfx/compositor.rs`. -/
def Compositor.add_image_rect (c : Compositor) (rect : Rect) (depth : ℚ)
    (color : Color) (loc : TextureLocation) : Compositor :=
  let coords := some (loc.min.1, loc.min.2, loc.max.1, loc.max.2)
  let p := place_rect c.transparent_batches c.empty_batches rect depth color
    coords (some loc.atlas_index)
  { c with transparent_batches := p.1, empty_batches := p.2 }

/-- Embedding of `Compositor::add_subpixel_rect` from `src/gfx/compositor.rs`. -/
def Compositor.add_subpixel_rect (c : Compositor) (rect : Rect) (depth : ℚ)
    (color : Color) (loc : TextureLocation) : Compositor :=
  let coords := some (loc.min.1, loc.min.2, loc.max.1, loc.max.2)
  let p := place_rect c.subpixel_batches c.empty_batches rect depth color
    coords (some loc.atlas_index)
  { c with subpixel_batches := p.1, empty_batches := p.2 }

/-- Interface of the external guillotiere `SimpleAtlasAllocator`: `mk size`
models `SimpleAtlasAllocator::new(size2(size, size))` and `alloc` models
`allocate(size2(w, h))`, returning the minimum corner of the allocated
rectangle together with the advanced allocator state (or `none` on failure,
leaving the state unchanged). -/
structure AllocatorModel (σ : Type) where
  init : ℕ → σ
  alloc : σ → ℕ → ℕ → Option ((ℕ × ℕ) × σ)

/-- Embedding of `Atlas` from `src/gfx/atlas.rs`; the GPU texture, view and
bind group are omitted, the CPU side (allocator, extent, block size, backing
buffer, dirty flag) is kept. -/
structure Atlas (σ : Type) where
  allocator : σ
  extent_width : ℕ
  extent_height : ℕ
  block_size : ℕ
  buffer : List ℕ
  dirty : Bool
deriving DecidableEq, Repr

/-- Embedding of `Atlas::new` from `src/gfx/atlas.rs` for the
`Rgba8UnormSrgb` format used by `ImageCache::allocate` (block size 4). -/
def Atlas.new {σ : Type} (am : AllocatorModel σ) (max_size : ℕ) : Atlas σ :=
  { allocator := am.init max_size,
    extent_width := max_size,
    extent_height := max_size,
    block_size := 4,
    buffer := List.replicate (max_size * max_size * 4) 0,
    dirty := true }

/-- Write `row` into `buffer` starting at `offset` (models
`dest.copy_from_slice(row)` on the slice `buffer[offset..offset+row.len()]`). -/
def write_slice (buffer : List ℕ) (offset : ℕ) (row : List ℕ) : List ℕ :=
  buffer.take offset ++ row ++ buffer.drop (offset + row.length)

/-- Split a list into consecutive chunks of `n` elements, the last chunk
possibly shorter — Rust's `slice::chunks(n)`. The `fuel` argument (instantiated
with the list length) only forces structural termination. -/
def chunks_go {α : Type} (fuel n : ℕ) (l : List α) : List (List α) :=
  match fuel with
  | 0 => []
  | fuel + 1 =>
    if n = 0 ∨ l.isEmpty then []
    else l.take n :: chunks_go fuel n (l.drop n)

/-- Rust's `slice::chunks(n)` (Rust panics for `n = 0`; the model returns `[]`
then, a case no caller reaches because the glyph cache never allocates
zero-width bitmaps). -/
def chunks {α : Type} (n : ℕ) (l : List α) : List (List α) :=
  chunks_go l.length n l

/-- The row-copy loop of `Atlas::allocate`: each row is copied to `offset`,
which then advances by `buffer_stride`. Returns the updated buffer and whether
the loop ran to completion: `self.buffer.get_mut(offset..offset + data_stride)`
returning `None` aborts the loop via `?` (and `copy_from_slice` panics when the
row is shorter than `data_stride`; the model folds that abort into the same
failure flag). Rows already copied stay in the buffer either way. -/
def copy_rows (buffer : List ℕ) (offset data_stride buffer_stride : ℕ) :
    List (List ℕ) → List ℕ × Bool
  | [] => (buffer, true)
  | row :: rest =>
    if offset + data_stride ≤ buffer.length ∧ row.length = data_stride then
      copy_rows (write_slice buffer offset row) (offset + buffer_stride)
        data_stride buffer_stride rest
    else
      (buffer, false)

/-- Embedding of `Atlas::allocate` from `src/gfx/atlas.rs`: ask the bin-packing
allocator for a rectangle, then copy `data` row by row into the backing buffer
and mark the atlas dirty. A failed copy aborts with `None` after the allocator
has already been advanced, without setting the dirty flag. -/
def Atlas.allocate {σ : Type} (am : AllocatorModel σ) (a : Atlas σ)
    (width height : ℕ) (data : List ℕ) : Option (ℕ × ℕ) × Atlas σ :=
  match am.alloc a.allocator width height with
  | none => (none, a)
  | some ((x, y), allocator') =>
    let channels := a.block_size
    let data_stride := width * channels
    let buffer_stride := a.extent_width * channels
    let offset := y * buffer_stride + x * channels
    let copied := copy_rows a.buffer offset data_stride buffer_stride
      (chunks data_stride data)
    if copied.2 then
      (some (x, y), { a with allocator := allocator', buffer := copied.1, dirty := true })
    else
      (none, { a with allocator := allocator', buffer := copied.1 })

/-- Embedding of `ImageCache` from `src/gfx/image_cache.rs`. -/
structure ImageCache (σ : Type) where
  atlases : List (Atlas σ)
  entries : List TextureLocation
  max_texture_size : ℕ
deriving DecidableEq, Repr

/-- Embedding of `ImageCache::new`. -/
def ImageCache.new {σ : Type} (max_texture_size : ℕ) : ImageCache σ :=
  { atlases := [], entries := [], max_texture_size := max_texture_size }

/-- The `for (atlas_index, atlas) in self.atlases.iter_mut().enumerate()` loop
of `ImageCache::allocate`: try every page in order, stopping at the first whose
`Atlas::allocate` succeeds. Returns the page index with the allocated corner
(or `none`) and the page list with each visited page's state updated. -/
def try_atlases {σ : Type} (am : AllocatorModel σ) (width height : ℕ)
    (data : List ℕ) : List (Atlas σ) → Option (ℕ × ℕ × ℕ) × List (Atlas σ)
  | [] => (none, [])
  | a :: rest =>
    match Atlas.allocate am a width height data with
    | (some (x, y), a') => (some (0, x, y), a' :: rest)
    | (none, a') =>
      let r := try_atlases am width height data rest
      (r.1.map (fun e => (e.1 + 1, e.2.1, e.2.2)), a' :: r.2)

/-- Embedding of `ImageCache::allocate` from `src/gfx/image_cache.rs`: try the
existing pages in order; if none fits, push one fresh page of the maximum
texture size and retry on it (the fresh page stays in the list even when the
retry fails). A success appends a `TextureLocation` scaled by
`1 / max_texture_size` and returns its index as the image id. -/
def ImageCache.allocate {σ : Type} (am : AllocatorModel σ) (c : ImageCache σ)
    (width height : ℕ) (data : List ℕ) : Option ℕ × ImageCache σ :=
  let tried := try_atlases am width height data c.atlases
  let step : Option (ℕ × ℕ × ℕ) × List (Atlas σ) :=
    match tried.1 with
    | some e => (some e, tried.2)
    | none =>
      let fresh := Atlas.new am c.max_texture_size
      match Atlas.allocate am fresh width height data with
      | (some (x, y), fresh') => (some (tried.2.length, x, y), tried.2 ++ [fresh'])
      | (none, fresh') => (none, tried.2 ++ [fresh'])
  match step.1 with
  | none => (none, { c with atlases := step.2 })
  | some (i, x, y) =>
    let id := c.entries.length
    let s : ℚ := 1 / (c.max_texture_size : ℚ)
    let location : TextureLocation :=
      { atlas_index := i,
        min := ((x : ℚ) * s, (y : ℚ) * s),
        max := (((x + width : ℕ) : ℚ) * s, ((y + height : ℕ) : ℚ) * s) }
    (some id, { c with atlases := step.2, entries := c.entries ++ [location] })

/-- Embedding of `ImageCache::get_image_location`. -/
def ImageCache.get_image_location {σ : Type} (c : ImageCache σ) (image_id : ℕ) :
    Option TextureLocation :=
  c.entries.get? image_id

/-- Embedding of `GlyphKey` from `src/gfx/glyph_cache.rs` (the swash
`CacheKey` is modelled as a number). -/
structure GlyphKey where
  fontkey : ℕ
  id : ℕ
  offset : SubpixelOffset × SubpixelOffset
  size : ℕ
deriving DecidableEq, Repr

/-- Embedding of `GlyphEntry` from `src/gfx/glyph_cache.rs`. -/
structure GlyphEntry where
  left : ℤ
  top : ℤ
  width : ℕ
  height : ℕ
  is_bitmap : Bool
  image_id : ℕ
deriving DecidableEq, Repr

/-- The observable outcome of the swash render call in
`GlyphCacheSession::get`: the placement, the content kind (`Content::Color`)
and the pixel bytes of the rendered image. -/
structure RenderedImage where
  left : ℤ
  top : ℤ
  width : ℕ
  height : ℕ
  is_color : Bool
  data : List ℕ
deriving DecidableEq, Repr

/-- Lookup in the association-list model of the `HashMap<GlyphKey, GlyphEntry>`. -/
def glyph_map_get (m : List (GlyphKey × GlyphEntry)) (k : GlyphKey) :
    Option GlyphEntry :=
  (m.find? (fun p => p.1 == k)).map (fun p => p.2)

/-- Insertion in the association-list model of the hash map; prepending
shadows any earlier binding, matching `HashMap::insert` replacement. -/
def glyph_map_insert (m : List (GlyphKey × GlyphEntry)) (k : GlyphKey)
    (v : GlyphEntry) : List (GlyphKey × GlyphEntry) :=
  (k, v) :: m

/-- Embedding of `GlyphCacheSession` from `src/gfx/glyph_cache.rs`: the session
borrows the image cache and the glyph map and fixes the font key and the
quantized size (`(size * 32.) as u16`). The scaler is carried separately as
the `render` parameter of `GlyphCacheSession.get`. -/
structure GlyphCacheSession (σ : Type) where
  image_cache : ImageCache σ
  quant_size : ℕ
  glyphs : List (GlyphKey × GlyphEntry)
  fontkey : ℕ
deriving Repr

/-- Outcome of one `GlyphCacheSession::get` call: the returned entry, the
session state afterwards, and instrumentation counting how often the
rasterizer (`Render::render_into`) and `ImageCache::allocate` were invoked
during the call. -/
structure GetResult (σ : Type) where
  entry : Option GlyphEntry
  session : GlyphCacheSession σ
  render_calls : ℕ
  alloc_calls : ℕ

/-- Embedding of `GlyphCacheSession::get` from `src/gfx/glyph_cache.rs`.
`render` models the fixed swash render configuration applied to the session's
scaler, a deterministic function of the glyph id and the quantized subpixel
offset (which the source feeds back via `offset(Vector::new(subpx[0].to_f32(),
subpx[1].to_f32()))`); it returns `none` when `render_into` returns `false`.
A cached key returns immediately; otherwise the glyph is rendered, zero-sized
bitmaps return `None` without caching, and an atlas allocation failure also
returns `None` without caching (though the failed `ImageCache::allocate` may
still have grown the page list). -/
def GlyphCacheSession.get {σ : Type} (am : AllocatorModel σ)
    (render : ℕ → SubpixelOffset × SubpixelOffset → Option RenderedImage)
    (s : GlyphCacheSession σ) (id : ℕ) (x y : ℚ) : GetResult σ :=
  let subpx := (SubpixelOffset.quantize x, SubpixelOffset.quantize y)
  let key : GlyphKey :=
    { id := id, fontkey := s.fontkey, offset := subpx, size := s.quant_size }
  match glyph_map_get s.glyphs key with
  | some entry => ⟨some entry, s, 0, 0⟩
  | none =>
    match render id subpx with
    | none => ⟨none, s, 1, 0⟩
    | some img =>
      if img.width = 0 ∨ img.height = 0 then ⟨none, s, 1, 0⟩
      else
        let allocated := ImageCache.allocate am s.image_cache img.width img.height img.data
        match allocated.1 with
        | none => ⟨none, { s with image_cache := allocated.2 }, 1, 1⟩
        | some image_id =>
          let entry : GlyphEntry :=
            { left := img.left, top := img.top, width := img.width,
              height := img.height, is_bitmap := img.is_color, image_id := image_id }
          ⟨some entry,
            { s with image_cache := allocated.2,
                     glyphs := glyph_map_insert s.glyphs key entry }, 1, 1⟩

/-- Modelled from the spec: the completeness score of one font's shaped result
for a cluster, `(count of glyphs with id ≠ 0) / (glyph count)`, with an empty
result scoring 0. The completeness-based font selector is not part of the
`src/` snapshot (the `Document::parse` draft there picks between exactly two
fonts from swash charmap statuses); the spec declares the ratio version from
another draft canonical, so it is modelled here from the spec's words. -/
def completeness_score (glyphs : List Glyph) : ℚ :=
  if glyphs.length = 0 then 0
  else ((glyphs.filter (fun g => g.id ≠ 0)).length : ℚ) / (glyphs.length : ℚ)

/-- Modelled from the spec: candidate `challenger` strictly beats the current
best `best` when its completeness is higher, or equal with strictly fewer
glyphs. -/
def beats (challenger best : List Glyph) : Prop :=
  completeness_score best < completeness_score challenger ∨
    (completeness_score challenger = completeness_score best ∧
      challenger.length < best.length)

instance beats_decidable (c b : List Glyph) : Decidable (beats c b) := by
  unfold beats; infer_instance

/-- Modelled from the spec: fold over the remaining candidates keeping the
index of the best one seen so far (`i` is the index of the head of the
remaining list in the original candidate list). -/
def select_font_go (best_idx : ℕ) (best : List Glyph) (i : ℕ) :
    List (List Glyph) → ℕ
  | [] => best_idx
  | c :: rest =>
    if beats c best then select_font_go i c (i + 1) rest
    else select_font_go best_idx best (i + 1) rest

/-- Modelled from the spec: the font selector returns the index of the
candidate with the highest completeness score, preferring fewer glyphs on a
tie and the earlier candidate on a full tie; `none` for an empty candidate
list. -/
def select_font : List (List Glyph) → Option ℕ
  | [] => none
  | c :: rest => some (select_font_go 0 c 1 rest)

/-- Trivial allocator used to instantiate the allocator interface in the
closed witnesses: every request succeeds at the origin. -/
def unit_allocator : AllocatorModel Unit :=
  { init := fun _ => (), alloc := fun _ _ _ => some ((0, 0), ()) }

/-- Concrete rasterizer for witnesses: every glyph renders to a 1×1 bitmap. -/
def render_one_pixel : ℕ → SubpixelOffset × SubpixelOffset → Option RenderedImage :=
  fun _ _ => some { left := 1, top := 2, width := 1, height := 1,
                    is_color := false, data := [9, 9, 9, 9] }

/-- Concrete rasterizer for witnesses: every glyph renders to a zero-width
bitmap (a whitespace glyph). -/
def render_zero_width : ℕ → SubpixelOffset × SubpixelOffset → Option RenderedImage :=
  fun _ _ => some { left := 0, top := 0, width := 0, height := 3,
                    is_color := false, data := [] }

/-- A fresh glyph-cache session over a 4×4-pixel image cache, used by the
closed witnesses. -/
def fresh_session : GlyphCacheSession Unit :=
  { image_cache := ImageCache.new 4, quant_size := 448, glyphs := [], fontkey := 7 }

/-- A compositor frame holding exactly one sub-pixel batch, used to evaluate
`Compositor::begin`. -/
def subpixel_frame : Compositor :=
  Compositor.new.add_subpixel_rect { x := 0, y := 0, width := 1, height := 1 } 0
    { r := 1, g := 2, b := 3, a := 100 }
    { atlas_index := 0, min := (0, 0), max := (1/4, 1/4) }

/-- First run of the spec's line-metrics example: ascent 10, descent 2,
leading 2. -/
def example_run1 : Run :=
  { font_index := 0, glyphs := [], coords := [], size := 14,
    metrics := { ascent := 10, descent := 2, leading := 2 } }

/-- Second run of the spec's line-metrics example: ascent 12, descent 3,
leading 1. -/
def example_run2 : Run :=
  { font_index := 1, glyphs := [], coords := [], size := 14,
    metrics := { ascent := 12, descent := 3, leading := 1 } }

/-- A line holding the two example runs with the given aggregate metrics. -/
def example_line (ascent descent leading above below : ℚ) : Line :=
  { runs := [example_run1, example_run2], ascent := ascent, descent := descent,
    leading := leading, above := above, below := below }

/-- The `GlyphEntry` that `GlyphCacheSession::get` builds from a rendered
image and a fresh image id. -/
def built_entry (img : RenderedImage) (image_id : ℕ) : GlyphEntry :=
  { left := img.left, top := img.top, width := img.width, height := img.height,
    is_bitmap := img.is_color, image_id := image_id }

/-- The session state after a successful rasterization: the image cache is
replaced and the new entry is inserted under `key`. -/
def session_after_alloc {σ : Type} (s : GlyphCacheSession σ) (cache2 : ImageCache σ)
    (key : GlyphKey) (entry : GlyphEntry) : GlyphCacheSession σ :=
  { s with image_cache := cache2, glyphs := glyph_map_insert s.glyphs key entry }

/-- The glyph key built by `GlyphCacheSession::get` for glyph `id` at
position `(x, y)` in session `s`. -/
def session_key {σ : Type} (s : GlyphCacheSession σ) (id : ℕ) (x y : ℚ) : GlyphKey :=
  { id := id, fontkey := s.fontkey,
    offset := (SubpixelOffset.quantize x, SubpixelOffset.quantize y),
    size := s.quant_size }

/-- The glyph entry produced by `render_one_pixel` through a fresh session:
placement (1, 2), a 1ֳ—1 bitmap, image id 0. -/
def witness_entry : GlyphEntry :=
  { left := 1, top := 2, width := 1, height := 1, is_bitmap := false, image_id := 0 }

/-- A unit square at the origin, used by the closed compositor theorems. -/
def witness_rect : Rect := { x := 0, y := 0, width := 1, height := 1 }

/-- A translucent color (alpha 100). -/
def translucent_color : Color := { r := 10, g := 20, b := 30, a := 100 }

/-- A fully opaque color (alpha 255). -/
def opaque_color : Color := { r := 10, g := 20, b := 30, a := 255 }

/-- A texture location on atlas page 0. -/
def witness_loc : TextureLocation := { atlas_index := 0, min := (0, 0), max := (1/4, 1/4) }

/-- A compositor holding one transparent batch bound to atlas page 0, created
by one `add_image_rect` call. -/
def image_frame : Compositor :=
  Compositor.new.add_image_rect witness_rect 0 translucent_color witness_loc

/-- State of `image_frame` after an untextured translucent `draw_rect`. -/
def image_then_plain : Compositor :=
  image_frame.draw_rect witness_rect 0 translucent_color

/-- A glyph with a nonzero id (5). -/
def glyph_a : Glyph := { id := 5, x_offset := 0, y_offset := 0, x_advance := 0, y_advance := 0 }

/-- A glyph with a nonzero id (6). -/
def glyph_b : Glyph := { id := 6, x_offset := 0, y_offset := 0, x_advance := 0, y_advance := 0 }

/-- A glyph with a nonzero id (7). -/
def glyph_c : Glyph := { id := 7, x_offset := 0, y_offset := 0, x_advance := 0, y_advance := 0 }

/-- The notdef glyph (id 0). -/
def glyph_zero : Glyph := { id := 0, x_offset := 0, y_offset := 0, x_advance := 0, y_advance := 0 }

/-- Candidate `winner` is at least as good as `other` under the spec's
ranking: strictly higher completeness, or equal completeness with at most as
many glyphs. -/
def dominates (winner other : List Glyph) : Prop :=
  completeness_score other < completeness_score winner ∨
    (completeness_score other = completeness_score winner ∧
      winner.length ≤ other.length)

theorem ratFloor_eq_intFloor (q : ℚ) : (Rat.floor q : ℤ) = ⌊q⌋ :=
  (Rat.floor_def' q).trans (Rat.floor_def).symm

/-- C1: for every position `pos`, `SubpixelOffset::quantize` buckets the
fractional part `f = pos - floor pos` by `⌊f * 8⌋`: bucket indices 0 and 7 map
to `Zero`, 1–2 to `Quarter`, 3–4 to `Half` and 5–6 to `ThreeQuarters`; and the
thirteen fractional offsets from the spec map exactly to
Zero, Zero, Quarter, Quarter, Quarter, Half, Half, Half, ThreeQuarters,
ThreeQuarters, ThreeQuarters, Zero, Zero. -/
theorem subpixel_quantize_buckets (pos : ℚ) :
    (SubpixelOffset.quantize pos =
      (if ⌊(pos - ⌊pos⌋) * 8⌋ = 0 ∨ ⌊(pos - ⌊pos⌋) * 8⌋ = 7 then SubpixelOffset.Zero
       else if 1 ≤ ⌊(pos - ⌊pos⌋) * 8⌋ ∧ ⌊(pos - ⌊pos⌋) * 8⌋ ≤ 2 then SubpixelOffset.Quarter
       else if 3 ≤ ⌊(pos - ⌊pos⌋) * 8⌋ ∧ ⌊(pos - ⌊pos⌋) * 8⌋ ≤ 4 then SubpixelOffset.Half
       else if 5 ≤ ⌊(pos - ⌊pos⌋) * 8⌋ ∧ ⌊(pos - ⌊pos⌋) * 8⌋ ≤ 6 then SubpixelOffset.ThreeQuarters
       else SubpixelOffset.Zero)) ∧
    (([0, 0.1, 0.125, 0.2, 0.374, 0.375, 0.5, 0.624, 0.625, 0.8, 0.874, 0.875, 0.99] : List ℚ).map
        SubpixelOffset.quantize =
      [SubpixelOffset.Zero, SubpixelOffset.Zero, SubpixelOffset.Quarter, SubpixelOffset.Quarter,
       SubpixelOffset.Quarter, SubpixelOffset.Half, SubpixelOffset.Half, SubpixelOffset.Half,
       SubpixelOffset.ThreeQuarters, SubpixelOffset.ThreeQuarters, SubpixelOffset.ThreeQuarters,
       SubpixelOffset.Zero, SubpixelOffset.Zero]) := by
  constructor
  · have h0 : (0 : ℚ) ≤ (pos - ⌊pos⌋) * 8 := by
      have := Int.fract_nonneg pos
      unfold Int.fract at this
      nlinarith
    have h1 : (pos - ⌊pos⌋) * 8 < 8 := by
      have := Int.fract_lt_one pos
      unfold Int.fract at this
      nlinarith
    have hb0 : 0 ≤ ⌊(pos - ⌊pos⌋) * 8⌋ := Int.floor_nonneg.mpr h0
    have hb7 : ⌊(pos - ⌊pos⌋) * 8⌋ < 8 := Int.floor_lt.mpr (by exact_mod_cast h1)
    unfold SubpixelOffset.quantize
    simp only [ratFloor_eq_intFloor]
    set b := ⌊(pos - ⌊pos⌋) * 8⌋ with hb
    have hcase : b = 0 ∨ b = 1 ∨ b = 2 ∨ b = 3 ∨ b = 4 ∨ b = 5 ∨ b = 6 ∨ b = 7 := by omega
    rcases hcase with h | h | h | h | h | h | h | h <;> rw [h] <;> norm_num
  · decide

/-- C3 (code bug): at the spec's two-run example with metrics
(ascent 10, descent 2, leading 2) and (ascent 12, descent 3, leading 1),
`Layout::finish` produces ascent 12, leading 2 and above 13 as the claim says,
but descent 12 (the source copies the rounded ascent into the descent on the
line marked `// eh???`) and below 13, where the claim expects descent 3 and
below 4. -/
theorem layout_finish_descent_is_ascent :
    Layout.finish { lines := [example_line 0 0 0 0 0] } =
      { lines := [example_line 12 12 2 13 13] } := by
  decide

/-- C8 (code bug): `Compositor::begin` empties the opaque and transparent
batch lists into the pool, but leaves `subpixel_batches` untouched: a frame
with one sub-pixel batch still has it, uncleared, after `begin()`. -/
theorem compositor_begin_skips_subpixel :
    subpixel_frame.begin.opaque_batches = [] ∧
    subpixel_frame.begin.transparent_batches = [] ∧
    subpixel_frame.begin.subpixel_batches = subpixel_frame.subpixel_batches ∧
    subpixel_frame.subpixel_batches ≠ [] := by
  decide

/-- C9 (code bug): `Layout::push_run` at line 0 with one glyph leaves the
layout unchanged — no line is created and no run is appended, because the
body of the source function is commented out. -/
theorem layout_push_run_is_noop :
    Layout.push_run { lines := [] } 0 0 (0, 4)
      [{ id := 3, x_offset := 0, y_offset := 0, x_advance := 10, y_advance := 0 }] =
      { lines := [] } :=
  rfl




theorem glyph_map_get_insert (m : List (GlyphKey × GlyphEntry)) (k : GlyphKey)
    (v : GlyphEntry) : glyph_map_get (glyph_map_insert m k v) k = some v := by
  simp [glyph_map_get, glyph_map_insert, List.find?]

theorem get_eq_of_cached {σ : Type} (am : AllocatorModel σ)
    (render : ℕ → SubpixelOffset × SubpixelOffset → Option RenderedImage)
    (s : GlyphCacheSession σ) (id : ℕ) (x y : ℚ) (e : GlyphEntry)
    (h : glyph_map_get s.glyphs (session_key s id x y) = some e) :
    GlyphCacheSession.get am render s id x y = ⟨some e, s, 0, 0⟩ := by
  unfold session_key at h
  unfold GlyphCacheSession.get
  dsimp only
  rw [h]

theorem get_eq_of_render_none {σ : Type} (am : AllocatorModel σ)
    (render : ℕ → SubpixelOffset × SubpixelOffset → Option RenderedImage)
    (s : GlyphCacheSession σ) (id : ℕ) (x y : ℚ)
    (hc : glyph_map_get s.glyphs (session_key s id x y) = none)
    (hr : render id (SubpixelOffset.quantize x, SubpixelOffset.quantize y) = none) :
    GlyphCacheSession.get am render s id x y = ⟨none, s, 1, 0⟩ := by
  unfold session_key at hc
  unfold GlyphCacheSession.get
  dsimp only
  rw [hc]
  dsimp only
  rw [hr]

theorem get_eq_of_zero_size {σ : Type} (am : AllocatorModel σ)
    (render : ℕ → SubpixelOffset × SubpixelOffset → Option RenderedImage)
    (s : GlyphCacheSession σ) (id : ℕ) (x y : ℚ) (img : RenderedImage)
    (hc : glyph_map_get s.glyphs (session_key s id x y) = none)
    (hr : render id (SubpixelOffset.quantize x, SubpixelOffset.quantize y) = some img)
    (hz : img.width = 0 ∨ img.height = 0) :
    GlyphCacheSession.get am render s id x y = ⟨none, s, 1, 0⟩ := by
  unfold session_key at hc
  unfold GlyphCacheSession.get
  dsimp only
  rw [hc]
  dsimp only
  rw [hr]
  dsimp only
  rw [if_pos hz]

theorem get_eq_of_alloc_fail {σ : Type} (am : AllocatorModel σ)
    (render : ℕ → SubpixelOffset × SubpixelOffset → Option RenderedImage)
    (s : GlyphCacheSession σ) (id : ℕ) (x y : ℚ) (img : RenderedImage)
    (hc : glyph_map_get s.glyphs (session_key s id x y) = none)
    (hr : render id (SubpixelOffset.quantize x, SubpixelOffset.quantize y) = some img)
    (hz : ¬(img.width = 0 ∨ img.height = 0))
    (ha : (ImageCache.allocate am s.image_cache img.width img.height img.data).1 = none) :
    GlyphCacheSession.get am render s id x y =
      ⟨none,
       { s with image_cache :=
           (ImageCache.allocate am s.image_cache img.width img.height img.data).2 },
       1, 1⟩ := by
  unfold session_key at hc
  unfold GlyphCacheSession.get
  dsimp only
  rw [hc]
  dsimp only
  rw [hr]
  dsimp only
  rw [if_neg hz]
  rw [ha]

theorem get_eq_of_alloc_ok {σ : Type} (am : AllocatorModel σ)
    (render : ℕ → SubpixelOffset × SubpixelOffset → Option RenderedImage)
    (s : GlyphCacheSession σ) (id : ℕ) (x y : ℚ) (img : RenderedImage) (image_id : ℕ)
    (hc : glyph_map_get s.glyphs (session_key s id x y) = none)
    (hr : render id (SubpixelOffset.quantize x, SubpixelOffset.quantize y) = some img)
    (hz : ¬(img.width = 0 ∨ img.height = 0))
    (ha : (ImageCache.allocate am s.image_cache img.width img.height img.data).1 = some image_id) :
    GlyphCacheSession.get am render s id x y =
      ⟨some (built_entry img image_id),
       session_after_alloc s
         (ImageCache.allocate am s.image_cache img.width img.height img.data).2
         (session_key s id x y) (built_entry img image_id),
       1, 1⟩ := by
  unfold session_key at hc ⊢
  unfold built_entry session_after_alloc
  unfold GlyphCacheSession.get
  dsimp only
  rw [hc]
  dsimp only
  rw [hr]
  dsimp only
  rw [if_neg hz]
  rw [ha]

/-- C2: two consecutive `GlyphCacheSession::get` calls with the same glyph id
and position that both return an entry return the same `image_id`; across the
two calls the rasterizer and the atlas allocator are each invoked at most
once; and a key already present in the cache map is answered from the map with
no rasterization, no allocation and an unchanged session. -/
theorem glyph_cache_get_idempotent {σ : Type} (am : AllocatorModel σ)
    (render : ℕ → SubpixelOffset × SubpixelOffset → Option RenderedImage)
    (s : GlyphCacheSession σ) (id : ℕ) (x y : ℚ) (e1 e2 : GlyphEntry)
    (h1 : (GlyphCacheSession.get am render s id x y).entry = some e1)
    (h2 : (GlyphCacheSession.get am render
            (GlyphCacheSession.get am render s id x y).session id x y).entry = some e2) :
    e1.image_id = e2.image_id ∧
    (GlyphCacheSession.get am render s id x y).render_calls +
      (GlyphCacheSession.get am render
        (GlyphCacheSession.get am render s id x y).session id x y).render_calls ≤ 1 ∧
    (GlyphCacheSession.get am render s id x y).alloc_calls +
      (GlyphCacheSession.get am render
        (GlyphCacheSession.get am render s id x y).session id x y).alloc_calls ≤ 1 ∧
    (∀ e, glyph_map_get s.glyphs (session_key s id x y) = some e →
      GlyphCacheSession.get am render s id x y = ⟨some e, s, 0, 0⟩) := by
  rcases hc : glyph_map_get s.glyphs (session_key s id x y) with _ | e
  · -- the first call misses the map: by h1 it must reach the success branch
    rcases hr : render id (SubpixelOffset.quantize x, SubpixelOffset.quantize y) with _ | img
    · rw [get_eq_of_render_none am render s id x y hc hr] at h1
      cases h1
    · by_cases hz : img.width = 0 ∨ img.height = 0
      · rw [get_eq_of_zero_size am render s id x y img hc hr hz] at h1
        cases h1
      · rcases ha : (ImageCache.allocate am s.image_cache img.width img.height img.data).1
          with _ | image_id
        · rw [get_eq_of_alloc_fail am render s id x y img hc hr hz ha] at h1
          cases h1
        · have h1eq := get_eq_of_alloc_ok am render s id x y img image_id hc hr hz ha
          rw [h1eq] at h1 h2 ⊢
          have he1 : built_entry img image_id = e1 := Option.some_injective _ h1
          have hhit : glyph_map_get
              (session_after_alloc s
                (ImageCache.allocate am s.image_cache img.width img.height img.data).2
                (session_key s id x y) (built_entry img image_id)).glyphs
              (session_key
                (session_after_alloc s
                  (ImageCache.allocate am s.image_cache img.width img.height img.data).2
                  (session_key s id x y) (built_entry img image_id)) id x y) =
              some (built_entry img image_id) := by
            have hk : session_key
                (session_after_alloc s
                  (ImageCache.allocate am s.image_cache img.width img.height img.data).2
                  (session_key s id x y) (built_entry img image_id)) id x y =
                session_key s id x y := rfl
            rw [hk]
            exact glyph_map_get_insert _ _ _
          have h2eq := get_eq_of_cached am render _ id x y _ hhit
          rw [h2eq] at h2
          have he2 : built_entry img image_id = e2 := Option.some_injective _ h2
          rw [h2eq]
          refine ⟨by rw [← he1, ← he2], by norm_num, by norm_num, ?_⟩
          intro e he
          exact Option.noConfusion he
  · -- the first call is answered from the map, and so is the second
    have h1eq := get_eq_of_cached am render s id x y e hc
    rw [h1eq] at h1 h2 ⊢
    have he1 : e = e1 := Option.some_injective _ h1
    have h2eq := get_eq_of_cached am render s id x y e hc
    rw [h2eq] at h2
    have he2 : e = e2 := Option.some_injective _ h2
    rw [h2eq]
    refine ⟨by rw [← he1, ← he2], by norm_num, by norm_num, ?_⟩
    intro f hf
    have hef : e = f := Option.some_injective _ hf
    rw [← hef]


/-- C5: when `GlyphCacheSession::get` misses the cache and rasterization
yields a bitmap of zero width or height, or the atlas allocation returns no
image id, `get` returns `None` and the cache map is left unchanged, so a later
call with the same key invokes the rasterizer again. -/
theorem glyph_cache_get_failure_not_cached {σ : Type} (am : AllocatorModel σ)
    (render : ℕ → SubpixelOffset × SubpixelOffset → Option RenderedImage)
    (s : GlyphCacheSession σ) (id : ℕ) (x y : ℚ)
    (hc : glyph_map_get s.glyphs (session_key s id x y) = none)
    (hfail :
      (∃ img, render id (SubpixelOffset.quantize x, SubpixelOffset.quantize y) = some img ∧
        (img.width = 0 ∨ img.height = 0)) ∨
      (∃ img, render id (SubpixelOffset.quantize x, SubpixelOffset.quantize y) = some img ∧
        ¬(img.width = 0 ∨ img.height = 0) ∧
        (ImageCache.allocate am s.image_cache img.width img.height img.data).1 = none)) :
    (GlyphCacheSession.get am render s id x y).entry = none ∧
    (GlyphCacheSession.get am render s id x y).session.glyphs = s.glyphs ∧
    (GlyphCacheSession.get am render
      (GlyphCacheSession.get am render s id x y).session id x y).render_calls = 1 := by
  rcases hfail with ⟨img, hr, hz⟩ | ⟨img, hr, hz, ha⟩
  · rw [get_eq_of_zero_size am render s id x y img hc hr hz]
    exact ⟨rfl, rfl, by rw [get_eq_of_zero_size am render s id x y img hc hr hz]⟩
  · rw [get_eq_of_alloc_fail am render s id x y img hc hr hz ha]
    refine ⟨rfl, rfl, ?_⟩
    dsimp only
    set s2 : GlyphCacheSession σ :=
      { image_cache := (ImageCache.allocate am s.image_cache img.width img.height img.data).2,
        quant_size := s.quant_size, glyphs := s.glyphs, fontkey := s.fontkey } with hs2
    have hc2 : glyph_map_get s2.glyphs (session_key s2 id x y) = none := hc
    rcases ha2 : (ImageCache.allocate am s2.image_cache img.width img.height img.data).1
      with _ | image_id
    · rw [get_eq_of_alloc_fail am render s2 id x y img hc2 hr hz ha2]
    · rw [get_eq_of_alloc_ok am render s2 id x y img image_id hc2 hr hz ha2]

/-- Closed witness of `glyph_cache_get_failure_not_cached`: a whitespace glyph
(zero-width bitmap) through a fresh session returns `None`, caches nothing, and
a repeated call rasterizes again. -/
theorem glyph_cache_get_failure_not_cached_witness :
    (GlyphCacheSession.get unit_allocator render_zero_width fresh_session 3 0 0).entry = none ∧
    (GlyphCacheSession.get unit_allocator render_zero_width fresh_session 3 0 0).session.glyphs =
      fresh_session.glyphs ∧
    (GlyphCacheSession.get unit_allocator render_zero_width
      (GlyphCacheSession.get unit_allocator render_zero_width fresh_session 3 0 0).session
      3 0 0).render_calls = 1 :=
  glyph_cache_get_failure_not_cached unit_allocator render_zero_width fresh_session 3 0 0
    rfl
    (Or.inl ⟨{ left := 0, top := 0, width := 0, height := 3, is_color := false, data := [] },
      rfl, Or.inl rfl⟩)

/-- Closed witness of `glyph_cache_get_idempotent`: glyph 3 at position (0, 0)
through a fresh session is rasterized once, and the repeated call returns the
cached entry with the same image id. -/
theorem glyph_cache_get_idempotent_witness :
    witness_entry.image_id = witness_entry.image_id ∧
    (GlyphCacheSession.get unit_allocator render_one_pixel fresh_session 3 0 0).render_calls +
      (GlyphCacheSession.get unit_allocator render_one_pixel
        (GlyphCacheSession.get unit_allocator render_one_pixel fresh_session 3 0 0).session
        3 0 0).render_calls ≤ 1 ∧
    (GlyphCacheSession.get unit_allocator render_one_pixel fresh_session 3 0 0).alloc_calls +
      (GlyphCacheSession.get unit_allocator render_one_pixel
        (GlyphCacheSession.get unit_allocator render_one_pixel fresh_session 3 0 0).session
        3 0 0).alloc_calls ≤ 1 ∧
    (∀ e, glyph_map_get fresh_session.glyphs (session_key fresh_session 3 0 0) = some e →
      GlyphCacheSession.get unit_allocator render_one_pixel fresh_session 3 0 0 =
        ⟨some e, fresh_session, 0, 0⟩) :=
  glyph_cache_get_idempotent unit_allocator render_one_pixel fresh_session 3 0 0
    witness_entry witness_entry (by decide) (by decide)







theorem find_batch_some (ai : Option ℕ) :
    ∀ (l : List Batch) (i : ℕ), find_batch ai l = some i →
      i < l.length ∧ check_fn ai (l.getD i Batch.default) = true := by
  intro l
  induction l with
  | nil => intro i h; cases h
  | cons b rest ih =>
    intro i h
    unfold find_batch at h
    by_cases hb : check_fn ai b
    · rw [if_pos hb] at h
      injection h with h
      subst h
      exact ⟨Nat.succ_pos _, hb⟩
    · rw [if_neg hb] at h
      rcases Option.map_eq_some'.mp h with ⟨j, hj, rfl⟩
      obtain ⟨hlen, hcheck⟩ := ih j hj
      exact ⟨Nat.succ_lt_succ hlen, hcheck⟩

theorem modify_at_getD_self (f : Batch → Batch) :
    ∀ (l : List Batch) (i : ℕ), i < l.length →
      (modify_at l i f).getD i Batch.default = f (l.getD i Batch.default) := by
  intro l
  induction l with
  | nil => intro i h; cases h
  | cons b rest ih =>
    intro i h
    cases i with
    | zero => rfl
    | succ j => exact ih j (Nat.lt_of_succ_lt_succ h)

theorem getD_append_self (l : List Batch) (x : Batch) :
    (l ++ [x]).getD l.length Batch.default = x := by
  induction l with
  | nil => rfl
  | cons b rest ih => exact ih

theorem place_rect_spec (target pool : List Batch) (rect : Rect) (depth : ℚ)
    (color : Color) (coords : Option (ℚ × ℚ × ℚ × ℚ)) (ai : Option ℕ) :
    (∀ i, find_batch ai target = some i →
      check_fn ai (target.getD i Batch.default) = true ∧
      (place_rect target pool rect depth color coords ai).1 =
        modify_at target i (fun b => b.add_rect rect depth color coords ai) ∧
      ((place_rect target pool rect depth color coords ai).1.getD i Batch.default).atlas_index = ai) ∧
    (find_batch ai target = none →
      (place_rect target pool rect depth color coords ai).1 =
        target ++ [(pool.getLast?.getD Batch.default).add_rect rect depth color coords ai] ∧
      ((place_rect target pool rect depth color coords ai).1.getD target.length
        Batch.default).atlas_index = ai) := by
  constructor
  · intro i hf
    obtain ⟨hlen, hcheck⟩ := find_batch_some ai target i hf
    have heq : (place_rect target pool rect depth color coords ai).1 =
        modify_at target i (fun b => b.add_rect rect depth color coords ai) := by
      unfold place_rect
      rw [hf]
    refine ⟨hcheck, heq, ?_⟩
    rw [heq, modify_at_getD_self _ target i hlen]
    rfl
  · intro hf
    have heq : (place_rect target pool rect depth color coords ai).1 =
        target ++ [(pool.getLast?.getD Batch.default).add_rect rect depth color coords ai] := by
      unfold place_rect
      rw [hf]
    refine ⟨heq, ?_⟩
    rw [heq, getD_append_self]
    rfl

/-- C10: `Compositor::draw_rect` never touches the sub-pixel batch list; a
fully opaque color leaves the transparent list unchanged and appends its quad
to the first opaque batch (or to a batch recycled from the pool when the
opaque list is empty), and a non-opaque color does the same with the roles of
the opaque and the transparent lists swapped. -/
theorem draw_rect_opacity_routing (c : Compositor) (rect : Rect) (depth : ℚ)
    (color : Color) :
    (c.draw_rect rect depth color).subpixel_batches = c.subpixel_batches ∧
    (color.a = 255 →
      (c.draw_rect rect depth color).transparent_batches = c.transparent_batches ∧
      (∀ i, find_batch none c.opaque_batches = some i →
        (c.draw_rect rect depth color).opaque_batches =
          modify_at c.opaque_batches i (fun b => b.add_rect rect depth color none none)) ∧
      (find_batch none c.opaque_batches = none →
        (c.draw_rect rect depth color).opaque_batches =
          c.opaque_batches ++
            [(c.empty_batches.getLast?.getD Batch.default).add_rect rect depth color none none])) ∧
    (¬ color.a = 255 →
      (c.draw_rect rect depth color).opaque_batches = c.opaque_batches ∧
      (∀ i, find_batch none c.transparent_batches = some i →
        (c.draw_rect rect depth color).transparent_batches =
          modify_at c.transparent_batches i (fun b => b.add_rect rect depth color none none)) ∧
      (find_batch none c.transparent_batches = none →
        (c.draw_rect rect depth color).transparent_batches =
          c.transparent_batches ++
            [(c.empty_batches.getLast?.getD Batch.default).add_rect rect depth color none none])) := by
  by_cases ha : color.a = 255
  · have hdr : c.draw_rect rect depth color = { c with
        opaque_batches := (place_rect c.opaque_batches c.empty_batches rect depth color none none).1,
        empty_batches := (place_rect c.opaque_batches c.empty_batches rect depth color none none).2 } := by
      unfold Compositor.draw_rect
      rw [if_pos ha]
    obtain ⟨hsome, hnone⟩ :=
      place_rect_spec c.opaque_batches c.empty_batches rect depth color none none
    refine ⟨by rw [hdr], fun _ => ⟨by rw [hdr], ?_, ?_⟩, fun hn => absurd ha hn⟩
    · intro i hf
      rw [hdr]
      exact (hsome i hf).2.1
    · intro hf
      rw [hdr]
      exact (hnone hf).1
  · have hdr : c.draw_rect rect depth color = { c with
        transparent_batches := (place_rect c.transparent_batches c.empty_batches rect depth color none none).1,
        empty_batches := (place_rect c.transparent_batches c.empty_batches rect depth color none none).2 } := by
      unfold Compositor.draw_rect
      rw [if_neg ha]
    obtain ⟨hsome, hnone⟩ :=
      place_rect_spec c.transparent_batches c.empty_batches rect depth color none none
    refine ⟨by rw [hdr], fun h255 => absurd h255 ha, fun _ => ⟨by rw [hdr], ?_, ?_⟩⟩
    · intro i hf
      rw [hdr]
      exact (hsome i hf).2.1
    · intro hf
      rw [hdr]
      exact (hnone hf).1

/-- Closed witness of `draw_rect_opacity_routing`: an opaque quad on a fresh
compositor goes to a new opaque batch; the transparent and sub-pixel lists stay
empty. -/
theorem draw_rect_opacity_routing_witness :
    (Compositor.new.draw_rect witness_rect 0 opaque_color).subpixel_batches =
      Compositor.new.subpixel_batches ∧
    (Compositor.new.draw_rect witness_rect 0 opaque_color).transparent_batches =
      Compositor.new.transparent_batches ∧
    (Compositor.new.draw_rect witness_rect 0 opaque_color).opaque_batches =
      Compositor.new.opaque_batches ++
        [(Compositor.new.empty_batches.getLast?.getD Batch.default).add_rect
          witness_rect 0 opaque_color none none] := by
  have h := draw_rect_opacity_routing Compositor.new witness_rect 0 opaque_color
  exact ⟨h.1, (h.2.1 rfl).1, (h.2.1 rfl).2.2 rfl⟩

theorem check_fn_textured (p : ℕ) (b : Batch) (h : check_fn (some p) b = true) :
    b.atlas_index = none ∨ b.atlas_index = some p := by
  unfold check_fn at h
  rcases hb : b.atlas_index with _ | q
  · exact Or.inl rfl
  · rw [hb] at h
    simp only [Option.isSome_some, Bool.and_self, if_true, beq_iff_eq] at h
    exact Or.inr (by rw [h])

/-- C7 (amended): every primitive is placed only into a batch of its own
pipeline kind; a textured primitive (`add_image_rect`, `add_subpixel_rect`)
lands in a pre-existing batch only when that batch has no atlas binding yet or
is bound to the same page, and afterwards the receiving batch (pre-existing or
fresh) is bound to the primitive's page; an untextured primitive
(`draw_rect`), however, resets the receiving batch's binding to none, because
`Batch::add_rect` stores the primitive's atlas index unconditionally. -/
theorem compositor_batch_binding (c : Compositor) (rect : Rect) (depth : ℚ)
    (color : Color) (loc : TextureLocation) :
    (c.add_image_rect rect depth color loc).opaque_batches = c.opaque_batches ∧
    (c.add_image_rect rect depth color loc).subpixel_batches = c.subpixel_batches ∧
    (∀ i, find_batch (some loc.atlas_index) c.transparent_batches = some i →
      ((c.transparent_batches.getD i Batch.default).atlas_index = none ∨
        (c.transparent_batches.getD i Batch.default).atlas_index = some loc.atlas_index) ∧
      ((c.add_image_rect rect depth color loc).transparent_batches.getD i
        Batch.default).atlas_index = some loc.atlas_index) ∧
    (find_batch (some loc.atlas_index) c.transparent_batches = none →
      ((c.add_image_rect rect depth color loc).transparent_batches.getD
        c.transparent_batches.length Batch.default).atlas_index = some loc.atlas_index) ∧
    (c.add_subpixel_rect rect depth color loc).opaque_batches = c.opaque_batches ∧
    (c.add_subpixel_rect rect depth color loc).transparent_batches = c.transparent_batches ∧
    (∀ i, find_batch (some loc.atlas_index) c.subpixel_batches = some i →
      ((c.subpixel_batches.getD i Batch.default).atlas_index = none ∨
        (c.subpixel_batches.getD i Batch.default).atlas_index = some loc.atlas_index) ∧
      ((c.add_subpixel_rect rect depth color loc).subpixel_batches.getD i
        Batch.default).atlas_index = some loc.atlas_index) ∧
    (find_batch (some loc.atlas_index) c.subpixel_batches = none →
      ((c.add_subpixel_rect rect depth color loc).subpixel_batches.getD
        c.subpixel_batches.length Batch.default).atlas_index = some loc.atlas_index) ∧
    (color.a = 255 →
      ∀ i, find_batch none c.opaque_batches = some i →
        ((c.draw_rect rect depth color).opaque_batches.getD i
          Batch.default).atlas_index = none) ∧
    (¬ color.a = 255 →
      ∀ i, find_batch none c.transparent_batches = some i →
        ((c.draw_rect rect depth color).transparent_batches.getD i
          Batch.default).atlas_index = none) := by
  have hai : c.add_image_rect rect depth color loc = { c with
      transparent_batches := (place_rect c.transparent_batches c.empty_batches rect depth color
        (some (loc.min.1, loc.min.2, loc.max.1, loc.max.2)) (some loc.atlas_index)).1,
      empty_batches := (place_rect c.transparent_batches c.empty_batches rect depth color
        (some (loc.min.1, loc.min.2, loc.max.1, loc.max.2)) (some loc.atlas_index)).2 } := by
    unfold Compositor.add_image_rect
    rfl
  have has : c.add_subpixel_rect rect depth color loc = { c with
      subpixel_batches := (place_rect c.subpixel_batches c.empty_batches rect depth color
        (some (loc.min.1, loc.min.2, loc.max.1, loc.max.2)) (some loc.atlas_index)).1,
      empty_batches := (place_rect c.subpixel_batches c.empty_batches rect depth color
        (some (loc.min.1, loc.min.2, loc.max.1, loc.max.2)) (some loc.atlas_index)).2 } := by
    unfold Compositor.add_subpixel_rect
    rfl
  obtain ⟨hti, hti0⟩ := place_rect_spec c.transparent_batches c.empty_batches rect depth color
    (some (loc.min.1, loc.min.2, loc.max.1, loc.max.2)) (some loc.atlas_index)
  obtain ⟨hsi, hsi0⟩ := place_rect_spec c.subpixel_batches c.empty_batches rect depth color
    (some (loc.min.1, loc.min.2, loc.max.1, loc.max.2)) (some loc.atlas_index)
  refine ⟨by rw [hai], by rw [hai], ?_, ?_, by rw [has], by rw [has], ?_, ?_, ?_, ?_⟩
  · intro i hf
    refine ⟨check_fn_textured loc.atlas_index _ (find_batch_some _ _ _ hf).2, ?_⟩
    rw [hai]
    exact (hti i hf).2.2
  · intro hf
    rw [hai]
    exact (hti0 hf).2
  · intro i hf
    refine ⟨check_fn_textured loc.atlas_index _ (find_batch_some _ _ _ hf).2, ?_⟩
    rw [has]
    exact (hsi i hf).2.2
  · intro hf
    rw [has]
    exact (hsi0 hf).2
  · intro ha i hf
    have hdr : c.draw_rect rect depth color = { c with
        opaque_batches := (place_rect c.opaque_batches c.empty_batches rect depth color none none).1,
        empty_batches := (place_rect c.opaque_batches c.empty_batches rect depth color none none).2 } := by
      unfold Compositor.draw_rect
      rw [if_pos ha]
    rw [hdr]
    exact ((place_rect_spec c.opaque_batches c.empty_batches rect depth color none none).1 i hf).2.2
  · intro ha i hf
    have hdr : c.draw_rect rect depth color = { c with
        transparent_batches := (place_rect c.transparent_batches c.empty_batches rect depth color none none).1,
        empty_batches := (place_rect c.transparent_batches c.empty_batches rect depth color none none).2 } := by
      unfold Compositor.draw_rect
      rw [if_neg ha]
    rw [hdr]
    exact ((place_rect_spec c.transparent_batches c.empty_batches rect depth color none none).1 i hf).2.2

/-- Closed witness of `compositor_batch_binding`: the first `add_image_rect`
on a fresh compositor creates a transparent batch bound to the primitive's
atlas page. -/
theorem compositor_batch_binding_witness :
    ((Compositor.new.add_image_rect witness_rect 0 translucent_color
      witness_loc).transparent_batches.getD Compositor.new.transparent_batches.length
      Batch.default).atlas_index = some witness_loc.atlas_index :=
  (compositor_batch_binding Compositor.new witness_rect 0 translucent_color
    witness_loc).2.2.2.1 rfl

/-- C7 counterexample: a transparent batch bound to atlas page 0 accepts a
compatible untextured quad (its vertex count grows by 4, no new batch is
created), yet its atlas binding changes from `some 0` to `none` — refuting
that accepting a compatible primitive never changes the batch's binding. -/
theorem compositor_batch_binding_counterexample :
    (image_frame.transparent_batches.getD 0 Batch.default).atlas_index = some 0 ∧
    image_then_plain.transparent_batches.length = image_frame.transparent_batches.length ∧
    (image_then_plain.transparent_batches.getD 0 Batch.default).vertices.length =
      (image_frame.transparent_batches.getD 0 Batch.default).vertices.length + 4 ∧
    (image_then_plain.transparent_batches.getD 0 Batch.default).atlas_index = none := by
  decide

theorem try_atlases_spec {σ : Type} (am : AllocatorModel σ) (width height : ℕ)
    (data : List ℕ) :
    ∀ l : List (Atlas σ),
    ((try_atlases am width height data l).1 = none →
      (∀ a ∈ l, (Atlas.allocate am a width height data).1 = none) ∧
      (try_atlases am width height data l).2.length = l.length) ∧
    (∀ i x y, (try_atlases am width height data l).1 = some (i, x, y) →
      i < l.length ∧
      (∀ j, j < i → (Atlas.allocate am (l.getD j (Atlas.new am 0)) width height data).1 = none) ∧
      (Atlas.allocate am (l.getD i (Atlas.new am 0)) width height data).1 = some (x, y)) := by
  intro l
  induction l with
  | nil =>
    refine ⟨fun _ => ⟨fun a ha => absurd ha (List.not_mem_nil a), rfl⟩, ?_⟩
    intro i x y h
    cases h
  | cons a rest ih =>
    rcases haa : Atlas.allocate am a width height data with ⟨ropt, a2⟩
    cases ropt with
    | some xy =>
      obtain ⟨x0, y0⟩ := xy
      have he : try_atlases am width height data (a :: rest) = (some (0, x0, y0), a2 :: rest) := by
        unfold try_atlases
        rw [haa]
      rw [he]
      constructor
      · intro h
        cases h
      · intro i x y h
        have h2 : some ((0 : ℕ), x0, y0) = some (i, x, y) := h
        injection h2 with h2
        simp only [Prod.mk.injEq] at h2
        obtain ⟨rfl, rfl, rfl⟩ := h2
        refine ⟨Nat.succ_pos _, fun j hj => absurd hj (Nat.not_lt_zero j), ?_⟩
        exact congrArg Prod.fst haa
    | none =>
      have he : try_atlases am width height data (a :: rest) =
          ((try_atlases am width height data rest).1.map (fun e => (e.1 + 1, e.2.1, e.2.2)),
            a2 :: (try_atlases am width height data rest).2) := by
        conv_lhs => rw [try_atlases]
        rw [haa]
      rw [he]
      constructor
      · intro h
        have h0 : (try_atlases am width height data rest).1 = none := Option.map_eq_none'.mp h
        obtain ⟨hall, hlen⟩ := ih.1 h0
        refine ⟨?_, ?_⟩
        · intro b hb
          rcases List.mem_cons.mp hb with rfl | hb
          · exact congrArg Prod.fst haa
          · exact hall b hb
        · show ((try_atlases am width height data rest).2).length + 1 = rest.length + 1
          rw [hlen]
      · intro i x y h
        rcases Option.map_eq_some'.mp h with ⟨e, he1, he2⟩
        obtain ⟨i2, x2, y2⟩ := e
        have he3 : ((i2 + 1 : ℕ), x2, y2) = (i, x, y) := he2
        simp only [Prod.mk.injEq] at he3
        obtain ⟨rfl, rfl, rfl⟩ := he3
        obtain ⟨hlt, hprev, hfound⟩ := ih.2 i2 x2 y2 he1
        refine ⟨Nat.succ_lt_succ hlt, ?_, hfound⟩
        intro j hj
        cases j with
        | zero => exact congrArg Prod.fst haa
        | succ j2 => exact hprev j2 (Nat.lt_of_succ_lt_succ hj)

/-- C6: `ImageCache::allocate` tries each existing page in order and uses the
first page whose allocator fits; when none fits it pushes exactly one fresh
page of the maximum texture size and retries there, returning `None` (with the
fresh page kept and the entry list unchanged) if that also fails; each success
returns `image_id` equal to the current entry count (so ids increase from 0)
and appends a location whose page index and UV rectangle are the allocated
pixel rectangle divided by the fixed page dimension. -/
theorem image_cache_allocate_spec {σ : Type} (am : AllocatorModel σ)
    (c : ImageCache σ) (width height : ℕ) (data : List ℕ) :
    ((ImageCache.allocate am c width height data).1 = none →
      (∀ a ∈ c.atlases, (Atlas.allocate am a width height data).1 = none) ∧
      (Atlas.allocate am (Atlas.new am c.max_texture_size) width height data).1 = none ∧
      (ImageCache.allocate am c width height data).2.entries = c.entries ∧
      (ImageCache.allocate am c width height data).2.atlases.length = c.atlases.length + 1) ∧
    (∀ id, (ImageCache.allocate am c width height data).1 = some id →
      id = c.entries.length ∧
      (∃ i x y,
        (ImageCache.allocate am c width height data).2.entries = c.entries ++
          [{ atlas_index := i,
             min := ((x : ℚ) / (c.max_texture_size : ℚ), (y : ℚ) / (c.max_texture_size : ℚ)),
             max := (((x + width : ℕ) : ℚ) / (c.max_texture_size : ℚ),
                     ((y + height : ℕ) : ℚ) / (c.max_texture_size : ℚ)) }] ∧
        ((i < c.atlases.length ∧
            (∀ j, j < i →
              (Atlas.allocate am (c.atlases.getD j (Atlas.new am 0)) width height data).1 = none) ∧
            (Atlas.allocate am (c.atlases.getD i (Atlas.new am 0)) width height data).1 =
              some (x, y)) ∨
          (i = c.atlases.length ∧
            (∀ a ∈ c.atlases, (Atlas.allocate am a width height data).1 = none) ∧
            (Atlas.allocate am (Atlas.new am c.max_texture_size) width height data).1 =
              some (x, y))))) := by
  obtain ⟨hnone_spec, hsome_spec⟩ := try_atlases_spec am width height data c.atlases
  rcases ht : (try_atlases am width height data c.atlases).1 with _ | e
  · obtain ⟨hall, hlen⟩ := hnone_spec ht
    rcases haf : Atlas.allocate am (Atlas.new am c.max_texture_size) width height data
      with ⟨rf, fresh2⟩
    cases rf with
    | none =>
      have he : ImageCache.allocate am c width height data =
          (none, { c with
            atlases := (try_atlases am width height data c.atlases).2 ++ [fresh2] }) := by
        unfold ImageCache.allocate
        dsimp only
        rw [ht]
        dsimp only
        rw [haf]
      rw [he]
      constructor
      · intro _
        refine ⟨hall, rfl, rfl, ?_⟩
        show ((try_atlases am width height data c.atlases).2 ++ [fresh2]).length =
          c.atlases.length + 1
        rw [List.length_append, hlen, List.length_singleton]
      · intro id h
        cases h
    | some xy =>
      obtain ⟨x0, y0⟩ := xy
      have he : ImageCache.allocate am c width height data =
          (some c.entries.length, { c with
            atlases := (try_atlases am width height data c.atlases).2 ++ [fresh2],
            entries := c.entries ++
              [{ atlas_index := (try_atlases am width height data c.atlases).2.length,
                 min := ((x0 : ℚ) * (1 / (c.max_texture_size : ℚ)),
                         (y0 : ℚ) * (1 / (c.max_texture_size : ℚ))),
                 max := (((x0 + width : ℕ) : ℚ) * (1 / (c.max_texture_size : ℚ)),
                         ((y0 + height : ℕ) : ℚ) * (1 / (c.max_texture_size : ℚ))) }] }) := by
        unfold ImageCache.allocate
        dsimp only
        rw [ht]
        dsimp only
        rw [haf]
      rw [he]
      constructor
      · intro h
        cases h
      · intro id h
        have h2 : some c.entries.length = some id := h
        injection h2 with h2
        refine ⟨h2.symm, c.atlases.length, x0, y0, ?_, Or.inr ⟨rfl, hall, rfl⟩⟩
        show c.entries ++ [_] = c.entries ++ [_]
        rw [hlen]
        rw [mul_one_div, mul_one_div, mul_one_div, mul_one_div]
  · obtain ⟨i0, x0, y0⟩ := e
    obtain ⟨hlt, hprev, hfound⟩ := hsome_spec i0 x0 y0 ht
    have he : ImageCache.allocate am c width height data =
        (some c.entries.length, { c with
          atlases := (try_atlases am width height data c.atlases).2,
          entries := c.entries ++
            [{ atlas_index := i0,
               min := ((x0 : ℚ) * (1 / (c.max_texture_size : ℚ)),
                       (y0 : ℚ) * (1 / (c.max_texture_size : ℚ))),
               max := (((x0 + width : ℕ) : ℚ) * (1 / (c.max_texture_size : ℚ)),
                       ((y0 + height : ℕ) : ℚ) * (1 / (c.max_texture_size : ℚ))) }] }) := by
      unfold ImageCache.allocate
      dsimp only
      rw [ht]
    rw [he]
    constructor
    · intro h
      cases h
    · intro id h
      have h2 : some c.entries.length = some id := h
      injection h2 with h2
      refine ⟨h2.symm, i0, x0, y0, ?_, Or.inl ⟨hlt, hprev, hfound⟩⟩
      show c.entries ++ [_] = c.entries ++ [_]
      rw [mul_one_div, mul_one_div, mul_one_div, mul_one_div]

/-- Closed witness of `image_cache_allocate_spec`: the first allocation in a
fresh 4ֳ—4 image cache returns image id 0, the entry count before the call. -/
theorem image_cache_allocate_spec_witness :
    (ImageCache.allocate unit_allocator (ImageCache.new 4 : ImageCache Unit)
      1 1 [9, 9, 9, 9]).1 = some 0 ∧
    0 = (ImageCache.new 4 : ImageCache Unit).entries.length :=
  ⟨by decide,
    ((image_cache_allocate_spec unit_allocator (ImageCache.new 4) 1 1 [9, 9, 9, 9]).2
      0 (by decide)).1⟩






theorem dominates_refl (a : List Glyph) : dominates a a :=
  Or.inr ⟨rfl, Nat.le_refl _⟩

theorem dominates_of_beats {c b : List Glyph} (h : beats c b) : dominates c b := by
  rcases h with h | ⟨he, hl⟩
  · exact Or.inl h
  · exact Or.inr ⟨he.symm, Nat.le_of_lt hl⟩

theorem dominates_of_not_beats {c b : List Glyph} (h : ¬ beats c b) : dominates b c := by
  unfold beats at h
  push_neg at h
  obtain ⟨h1, h2⟩ := h
  rcases lt_or_eq_of_le h1 with hlt | heq
  · exact Or.inl hlt
  · exact Or.inr ⟨heq, h2 heq⟩

theorem dominates_trans {a b c : List Glyph} (h1 : dominates a b) (h2 : dominates b c) :
    dominates a c := by
  rcases h1 with h1 | ⟨h1e, h1l⟩ <;> rcases h2 with h2 | ⟨h2e, h2l⟩
  · exact Or.inl (h2.trans h1)
  · exact Or.inl (by rw [h2e]; exact h1)
  · exact Or.inl (by rw [← h1e]; exact h2)
  · exact Or.inr ⟨h2e.trans h1e, h1l.trans h2l⟩

theorem select_font_go_spec (val : ℕ → List Glyph) :
    ∀ (rest : List (List Glyph)) (bi i : ℕ) (b : List Glyph),
      val bi = b →
      (∀ j, j < rest.length → val (i + j) = rest.getD j []) →
      (select_font_go bi b i rest = bi ∨
        (i ≤ select_font_go bi b i rest ∧ select_font_go bi b i rest < i + rest.length)) ∧
      dominates (val (select_font_go bi b i rest)) b ∧
      (∀ j, j < rest.length → dominates (val (select_font_go bi b i rest)) (rest.getD j [])) := by
  intro rest
  induction rest with
  | nil =>
    intro bi i b hb _
    refine ⟨Or.inl rfl, ?_, ?_⟩
    · show dominates (val bi) b
      rw [hb]
      exact dominates_refl b
    · intro j hj
      exact absurd hj (Nat.not_lt_zero j)
  | cons c cs ih =>
    intro bi i b hb hrest
    have hc : val i = c := by
      have := hrest 0 (Nat.succ_pos _)
      rwa [Nat.add_zero] at this
    have htail : ∀ j, j < cs.length → val (i + 1 + j) = cs.getD j [] := by
      intro j hj
      have harith : i + 1 + j = i + (j + 1) := by omega
      rw [harith]
      exact hrest (j + 1) (Nat.succ_lt_succ hj)
    by_cases hbeat : beats c b
    · have hgo : select_font_go bi b i (c :: cs) = select_font_go i c (i + 1) cs := by
        rw [select_font_go]
        rw [if_pos hbeat]
      obtain ⟨hrange, hdomc, hdomall⟩ := ih i (i + 1) c hc htail
      rw [hgo]
      refine ⟨?_, ?_, ?_⟩
      · rcases hrange with h | ⟨ha1, ha2⟩
        · right
          constructor
          · rw [h]
          · rw [h]
            have : cs.length + 1 = (c :: cs).length := rfl
            omega
        · right
          refine ⟨by omega, by simpa [List.length_cons] using by omega⟩
      · exact dominates_trans hdomc (dominates_of_beats hbeat)
      · intro j hj
        cases j with
        | zero => exact hdomc
        | succ j2 => exact hdomall j2 (Nat.lt_of_succ_lt_succ hj)
    · have hgo : select_font_go bi b i (c :: cs) = select_font_go bi b (i + 1) cs := by
        rw [select_font_go]
        rw [if_neg hbeat]
      obtain ⟨hrange, hdomb, hdomall⟩ := ih bi (i + 1) b hb htail
      rw [hgo]
      refine ⟨?_, hdomb, ?_⟩
      · rcases hrange with h | ⟨ha1, ha2⟩
        · exact Or.inl h
        · right
          refine ⟨by omega, ?_⟩
          have : (c :: cs).length = cs.length + 1 := rfl
          omega
      · intro j hj
        cases j with
        | zero => exact dominates_trans hdomb (dominates_of_not_beats hbeat)
        | succ j2 => exact hdomall j2 (Nat.lt_of_succ_lt_succ hj)

/-- C4 (modelled from the spec): the font selector picks an index within the
candidate list whose shaped result dominates every candidate — strictly
highest completeness, or equal completeness with at most as many glyphs, the
earlier candidate winning full ties; in particular a candidate with
completeness 1.0 and one glyph beats a completeness-1.0 candidate with two
glyphs (tie broken toward fewer glyphs), and a completeness-1.0 candidate
beats a completeness-0.5 one. -/
theorem font_selector_max_completeness :
    (∀ (cands : List (List Glyph)) (i : ℕ), select_font cands = some i →
      i < cands.length ∧
      ∀ j, j < cands.length → dominates (cands.getD i []) (cands.getD j [])) ∧
    select_font [[glyph_a, glyph_b], [glyph_c]] = some 1 ∧
    select_font [[glyph_a], [glyph_zero, glyph_c]] = some 0 := by
  refine ⟨?_, by decide, by decide⟩
  intro cands i hsel
  cases cands with
  | nil => cases hsel
  | cons c cs =>
    have hsel2 : select_font_go 0 c 1 cs = i := by
      unfold select_font at hsel
      injection hsel
    subst hsel2
    obtain ⟨hrange, hdomb, hdomall⟩ :=
      select_font_go_spec (fun j => (c :: cs).getD j []) cs 0 1 c rfl
        (fun j _ => by rw [Nat.add_comm 1 j]; rfl)
    constructor
    · rcases hrange with h | ⟨_, h2⟩
      · rw [h]
        exact Nat.succ_pos _
      · have : (c :: cs).length = cs.length + 1 := rfl
        omega
    · intro j hj
      cases j with
      | zero => exact hdomb
      | succ j2 => exact hdomall j2 (Nat.lt_of_succ_lt_succ hj)

/-- Closed witness of `font_selector_max_completeness`: at a completeness tie
of 1.0, the selected one-glyph candidate dominates the two-glyph candidate. -/
theorem font_selector_max_completeness_witness :
    1 < ([[glyph_a, glyph_b], [glyph_c]] : List (List Glyph)).length ∧
    dominates ([[glyph_a, glyph_b], [glyph_c]].getD 1 [])
      ([[glyph_a, glyph_b], [glyph_c]].getD 0 []) := by
  have h := font_selector_max_completeness.1 [[glyph_a, glyph_b], [glyph_c]] 1 (by decide)
  exact ⟨h.1, h.2 0 (by decide)⟩

end DuckPipeline
